import Mathlib

/-
Verification development for a small linear-algebra toolkit consisting of
two Python modules, `Vector.py` and `Line.py`.

Embedding conventions:
- `decimal.Decimal` values are modelled as exact rationals (`ℚ`).  The
  toolkit's string-constructed decimals are exact, and all of its
  tolerance comparisons are intended to be exact decimal comparisons; the
  idealisation replaces 30-significant-digit decimal rounding with exact
  arithmetic.
- `Decimal.sqrt` is modelled as the exact real square root, so
  `magnitude` lives in `ℝ`.  Predicates that compare a magnitude with a
  rational tolerance are given computable `Decidable` instances through
  square comparisons on `ℚ`.
- Fallible operations (Python exceptions) return `Option`/`Except`:
  `none`/`.error` marks a raised exception.
- Python's `for position, item in enumerate(...)` scan and list
  comprehensions are modelled by structural recursion over lists.
-/

namespace LinAlg

/-- Default tolerance `Decimal('1e-15')` shared by `Vector.__init__` and
`Line.__init__`. -/
def defaultTolerance : ℚ := 1 / 10 ^ 15

/-- A `Vector.py` vector: a tuple of decimal coordinates plus the
tolerance field stored on the instance. -/
structure Vector where
  coordinates : List ℚ
  tolerance : ℚ
deriving DecidableEq, Repr

/-- Source `self.dimension = len(self.coordinates)`. -/
def Vector.dimension (v : Vector) : ℕ := v.coordinates.length

/-- Source `Vector.add`: `Vector(x + y for x, y in zip(self.coordinates, other.coordinates))`.
The resulting vector is built by `Vector.__init__` with the default tolerance. -/
def Vector.add (v w : Vector) : Vector :=
  ⟨List.zipWith (· + ·) v.coordinates w.coordinates, defaultTolerance⟩

/-- Source `Vector.subtract`: `Vector(x - y for x, y in zip(...))`, default tolerance. -/
def Vector.subtract (v w : Vector) : Vector :=
  ⟨List.zipWith (· - ·) v.coordinates w.coordinates, defaultTolerance⟩

/-- Source `Vector.dot`: `sum(x * y for x, y in zip(self.coordinates, other.coordinates))`. -/
def Vector.dot (v w : Vector) : ℚ :=
  (List.zipWith (· * ·) v.coordinates w.coordinates).sum

/-- Scalar multiplication branch of `Vector.__mul__`:
`Vector(x * Decimal(other) for x in self.coordinates)`, default tolerance. -/
def Vector.scale (v : Vector) (c : ℚ) : Vector :=
  ⟨v.coordinates.map (fun x => x * c), defaultTolerance⟩

/-- The radicand of `Vector.magnitude`: `sum(x ** 2 for x in self.coordinates)`. -/
def Vector.magSq (v : Vector) : ℚ :=
  (v.coordinates.map (fun x => x ^ 2)).sum

/-- Source `Vector.magnitude`: `sum(x ** 2 for x in self.coordinates).sqrt()`,
with `Decimal.sqrt` modelled as the exact real square root. -/
noncomputable def Vector.magnitude (v : Vector) : ℝ :=
  Real.sqrt (v.magSq : ℝ)

/-- Source `Vector.is_zero`: `self.magnitude() < self.tolerance`. -/
def Vector.is_zero (v : Vector) : Prop :=
  v.magnitude < (v.tolerance : ℝ)

/-- Source `Vector.is_orthogonal_to`: `abs(self * other) < self.tolerance`
(`self * other` is the dot product, an exact rational here). -/
def Vector.is_orthogonal_to (v w : Vector) : Prop :=
  |v.dot w| < v.tolerance

instance (v w : Vector) : Decidable (v.is_orthogonal_to w) := by
  unfold Vector.is_orthogonal_to; infer_instance

/-- Source `Vector.is_parallel_to`:
`self.is_zero() or other.is_zero()` short-circuits to true, otherwise
`abs(abs(self * other) - self.magnitude() * other.magnitude()) < self.tolerance`. -/
def Vector.is_parallel_to (v w : Vector) : Prop :=
  v.is_zero ∨ w.is_zero ∨
    |((|v.dot w| : ℚ) : ℝ) - v.magnitude * w.magnitude| < (v.tolerance : ℝ)

lemma Vector.magSq_nonneg (v : Vector) : 0 ≤ v.magSq := by
  unfold Vector.magSq
  induction v.coordinates with
  | nil => simp
  | cons x xs ih =>
      simp only [List.map_cons, List.sum_cons]
      have hx : 0 ≤ x ^ 2 := sq_nonneg x
      linarith

lemma Vector.magnitude_nonneg (v : Vector) : 0 ≤ v.magnitude :=
  Real.sqrt_nonneg _

/-- Characterisation of `sqrt s < t` by a rational comparison. -/
lemma sqrt_lt_rat_iff (s t : ℚ) :
    Real.sqrt (s : ℝ) < (t : ℝ) ↔ (0 < t ∧ s < t ^ 2) := by
  constructor
  · intro h
    have ht : (0 : ℝ) < (t : ℝ) := lt_of_le_of_lt (Real.sqrt_nonneg _) h
    have ht' : (0 : ℚ) < t := by exact_mod_cast ht
    refine ⟨ht', ?_⟩
    have := (Real.sqrt_lt' ht).mp h
    have h2 : (s : ℝ) < ((t ^ 2 : ℚ) : ℝ) := by push_cast; exact this
    exact_mod_cast h2
  · rintro ⟨ht, hlt⟩
    have ht' : (0 : ℝ) < (t : ℝ) := by exact_mod_cast ht
    refine (Real.sqrt_lt' ht').mpr ?_
    have h2 : (s : ℝ) < ((t ^ 2 : ℚ) : ℝ) := by exact_mod_cast hlt
    push_cast at h2
    exact h2

instance (v : Vector) : Decidable v.is_zero :=
  decidable_of_iff (0 < v.tolerance ∧ v.magSq < v.tolerance ^ 2)
    (sqrt_lt_rat_iff v.magSq v.tolerance).symm

/-- Characterisation of `|D - sqrt m| < t` (`D`, `m`, `t` rational,
`0 ≤ D`, `0 ≤ m`) by rational comparisons. -/
lemma abs_sub_sqrt_lt_iff (D m t : ℚ) (hm : 0 ≤ m) :
    |(D : ℝ) - Real.sqrt (m : ℝ)| < (t : ℝ) ↔
      ((D - t < 0 ∨ (D - t) ^ 2 < m) ∧ (0 < D + t ∧ m < (D + t) ^ 2)) := by
  rw [abs_sub_lt_iff]
  have hmr : (0 : ℝ) ≤ (m : ℝ) := by exact_mod_cast hm
  constructor
  · rintro ⟨h1, h2⟩
    -- h1 : D - sqrt m < t, h2 : sqrt m - D < t
    have hupper : Real.sqrt (m : ℝ) < ((D + t : ℚ) : ℝ) := by push_cast; linarith
    have hpos : (0 : ℝ) < ((D + t : ℚ) : ℝ) :=
      lt_of_le_of_lt (Real.sqrt_nonneg _) hupper
    have hposq : (0 : ℚ) < D + t := by exact_mod_cast hpos
    have hm2 : m < (D + t) ^ 2 := by
      have := (Real.sqrt_lt' hpos).mp hupper
      have h2' : (m : ℝ) < (((D + t) ^ 2 : ℚ) : ℝ) := by push_cast; push_cast at this; linarith
      exact_mod_cast h2'
    refine ⟨?_, hposq, hm2⟩
    by_cases hneg : D - t < 0
    · exact Or.inl hneg
    · right
      have hnn : (0 : ℚ) ≤ D - t := le_of_not_lt hneg
      have hnnr : (0 : ℝ) ≤ ((D - t : ℚ) : ℝ) := by exact_mod_cast hnn
      have hlow : ((D - t : ℚ) : ℝ) < Real.sqrt (m : ℝ) := by push_cast; linarith
      have := (Real.lt_sqrt hnnr).mp hlow
      have h1' : (((D - t) ^ 2 : ℚ) : ℝ) < (m : ℝ) := by push_cast; push_cast at this; linarith
      exact_mod_cast h1'
  · rintro ⟨hlow, hpos, hm2⟩
    have hposr : (0 : ℝ) < ((D + t : ℚ) : ℝ) := by exact_mod_cast hpos
    have hupper : Real.sqrt (m : ℝ) < ((D + t : ℚ) : ℝ) := by
      refine (Real.sqrt_lt' hposr).mpr ?_
      have : (m : ℝ) < (((D + t) ^ 2 : ℚ) : ℝ) := by exact_mod_cast hm2
      push_cast at this ⊢
      linarith
    have h2 : Real.sqrt (m : ℝ) - (D : ℝ) < (t : ℝ) := by
      push_cast at hupper; linarith
    refine ⟨?_, h2⟩
    -- show D - sqrt m < t, i.e. D - t < sqrt m
    rcases hlow with hneg | hsq
    · have : ((D - t : ℚ) : ℝ) < 0 := by exact_mod_cast hneg
      have := lt_of_lt_of_le this (Real.sqrt_nonneg (m : ℝ))
      push_cast at this; linarith
    · by_cases hneg : D - t < 0
      · have : ((D - t : ℚ) : ℝ) < 0 := by exact_mod_cast hneg
        have := lt_of_lt_of_le this (Real.sqrt_nonneg (m : ℝ))
        push_cast at this; linarith
      · have hnn : (0 : ℚ) ≤ D - t := le_of_not_lt hneg
        have hnnr : (0 : ℝ) ≤ ((D - t : ℚ) : ℝ) := by exact_mod_cast hnn
        have hlt : (((D - t) ^ 2 : ℚ) : ℝ) < (m : ℝ) := by exact_mod_cast hsq
        have hlt' : ((D - t : ℚ) : ℝ) ^ 2 < (m : ℝ) := by push_cast at hlt ⊢; linarith
        have hmain : ((D - t : ℚ) : ℝ) < Real.sqrt (m : ℝ) := (Real.lt_sqrt hnnr).mpr hlt'
        push_cast at hmain; linarith

/-- The third disjunct of `is_parallel_to`, rewritten over `ℚ`. -/
def parallelCond (v w : Vector) : Prop :=
  (|v.dot w| - v.tolerance < 0 ∨ (|v.dot w| - v.tolerance) ^ 2 < v.magSq * w.magSq) ∧
    (0 < |v.dot w| + v.tolerance ∧ v.magSq * w.magSq < (|v.dot w| + v.tolerance) ^ 2)

instance (v w : Vector) : Decidable (parallelCond v w) := by
  unfold parallelCond; infer_instance

lemma is_parallel_to_iff (v w : Vector) :
    v.is_parallel_to w ↔ (v.is_zero ∨ w.is_zero ∨ parallelCond v w) := by
  unfold Vector.is_parallel_to
  refine or_congr Iff.rfl (or_congr Iff.rfl ?_)
  have hprod : v.magnitude * w.magnitude = Real.sqrt ((v.magSq * w.magSq : ℚ) : ℝ) := by
    unfold Vector.magnitude
    rw [show ((v.magSq * w.magSq : ℚ) : ℝ) = (v.magSq : ℝ) * (w.magSq : ℝ) by push_cast; ring]
    rw [Real.sqrt_mul (by exact_mod_cast v.magSq_nonneg)]
  rw [hprod]
  exact abs_sub_sqrt_lt_iff (|v.dot w|) (v.magSq * w.magSq) v.tolerance
    (mul_nonneg v.magSq_nonneg w.magSq_nonneg)

instance (v w : Vector) : Decidable (v.is_parallel_to w) :=
  decidable_of_iff (v.is_zero ∨ w.is_zero ∨ parallelCond v w) (is_parallel_to_iff v w).symm

/-- A vector whose coordinates involve an exact square root (the result of
`normalized` and of the projection operations); the tolerance field stored
on the instance stays rational. -/
structure RVector where
  coordinates : List ℝ
  tolerance : ℚ

/-- Real-coordinate view of a rational vector. -/
noncomputable def Vector.rcoords (v : Vector) : List ℝ :=
  v.coordinates.map (fun x : ℚ => (x : ℝ))

/-- Dot product over real coordinate lists (same `zip`-truncating shape as
`Vector.dot`). -/
noncomputable def rdot (xs ys : List ℝ) : ℝ :=
  (List.zipWith (· * ·) xs ys).sum

/-- Source `Vector.normalized`: raises (`none`) when `self.magnitude().is_zero()`
(an exact-zero test on the computed magnitude: `sqrt magSq = 0` iff
`magSq = 0`), else `Vector(x / m for x in self.coordinates)` with the
default tolerance. -/
noncomputable def Vector.normalized (v : Vector) : Option RVector :=
  if v.magSq = 0 then none
  else some ⟨v.coordinates.map (fun x : ℚ => (x : ℝ) / v.magnitude), defaultTolerance⟩

/-- Scalar multiplication on `RVector`, as produced by `Vector.__mul__`:
each coordinate becomes `x * scalar`; the result carries the default
tolerance. -/
noncomputable def RVector.scale (u : RVector) (c : ℝ) : RVector :=
  ⟨u.coordinates.map (fun x => x * c), defaultTolerance⟩

/-- Source `Vector.parallel_to`: `norm_other = other.normalized()`, then
`(self * norm_other) * norm_other`; a `ZeroDivisionError` from
`normalized` is re-raised as `ArithmeticError` (`none` here). -/
noncomputable def Vector.parallel_to (v w : Vector) : Option RVector :=
  (w.normalized).map (fun nw => nw.scale (rdot v.rcoords nw.coordinates))

/-- Source `Vector.orthogonal_to`: `self - self.parallel_to(other)`; subtraction
is the element-wise `zip` and the result carries the default tolerance. -/
noncomputable def Vector.orthogonal_to (v w : Vector) : Option RVector :=
  (v.parallel_to w).map
    (fun p => ⟨List.zipWith (· - ·) v.rcoords p.coordinates, defaultTolerance⟩)

/-- Source `Vector.add` on an `RVector` pair (used for the decomposition claim):
element-wise `zip`, default tolerance. -/
noncomputable def RVector.add (u t : RVector) : RVector :=
  ⟨List.zipWith (· + ·) u.coordinates t.coordinates, defaultTolerance⟩

/-- Source `is_orthogonal_to` called on a projection result against a rational
vector: `abs(self * other) < self.tolerance`. -/
noncomputable def RVector.is_orthogonal_to (u : RVector) (w : Vector) : Prop :=
  |rdot u.coordinates w.rcoords| < ((u.tolerance : ℚ) : ℝ)

/-- Source `Vector.cross`: only defined when both dimensions are exactly 3
(otherwise an exception, `none` here); the standard 3-D cross product,
built with the default tolerance. -/
def Vector.cross (v w : Vector) : Option Vector :=
  if v.dimension = 3 ∧ w.dimension = 3 then
    some ⟨[v.coordinates.getD 1 0 * w.coordinates.getD 2 0 -
             v.coordinates.getD 2 0 * w.coordinates.getD 1 0,
           -(v.coordinates.getD 0 0 * w.coordinates.getD 2 0 -
             v.coordinates.getD 2 0 * w.coordinates.getD 0 0),
           v.coordinates.getD 0 0 * w.coordinates.getD 1 0 -
             v.coordinates.getD 1 0 * w.coordinates.getD 0 0],
          defaultTolerance⟩
  else none

/-
Vector construction (`Vector.__init__`).  The constructor first tests the
Python truthiness of the argument (`if not coordinates: raise ValueError`)
and only then iterates it (`tuple(Decimal(x) for x in coordinates)`,
raising `TypeError` for non-iterables).  Truthiness depends on the kind of
argument, so the input is modelled as one of:
- a non-iterable object (truthy or falsy),
- a sequence (list/tuple), falsy exactly when empty,
- an iterator/generator object, which is always truthy in Python
  regardless of how many elements it will yield.
-/

inductive PyInput where
  | notIterable (truthy : Bool)
  | sequence (elems : List ℚ)
  | iterator (elems : List ℚ)
deriving DecidableEq, Repr

/-- Python truthiness of the constructor argument. -/
def PyInput.truthy : PyInput → Bool
  | .notIterable b => b
  | .sequence l => !l.isEmpty
  | .iterator _ => true

/-- Whether the constructor argument supports iteration. -/
def PyInput.iterable : PyInput → Bool
  | .notIterable _ => false
  | .sequence _ => true
  | .iterator _ => true

/-- The element list produced by iterating the argument (meaningful only
for iterable inputs). -/
def PyInput.elements : PyInput → List ℚ
  | .notIterable _ => []
  | .sequence l => l
  | .iterator l => l

inductive VectorError where
  | valueError
  | typeError
deriving DecidableEq, Repr

/-- Source `Vector.__init__`: `if not coordinates: raise ValueError` (reported as
`Coordinates must be non-empty`); otherwise iterate the argument, which
raises `TypeError` (`Coordinates must be an iterable`) for non-iterable
objects, and on success stores the coordinate tuple with the given
tolerance. -/
def Vector.construct (input : PyInput) (tol : ℚ) : Except VectorError Vector :=
  if input.truthy = false then .error .valueError
  else
    match input with
    | .notIterable _ => .error .typeError
    | .sequence l => .ok ⟨l, tol⟩
    | .iterator l => .ok ⟨l, tol⟩

/-- Whether construction raised. -/
def constructRaises (r : Except VectorError Vector) : Bool :=
  match r with
  | .error _ => true
  | .ok _ => false

/-- A `Line.py` line: the normal vector, constant term and tolerance
stored by `Line.__init__` (dimension is fixed at 2; `base_point` is
derived below). -/
structure Line where
  normal_vector : Vector
  constant_term : ℚ
  tolerance : ℚ
deriving DecidableEq, Repr

/-- Source `self.dimension = 2`. -/
def Line.dimension (_ : Line) : ℕ := 2

/-- The `for position, item in enumerate(...)` scan of
`Line.first_nonzero_index`: return the first position whose item fails
`abs(item) < self.tolerance`. -/
def firstNonzeroAux (t : ℚ) : List ℚ → ℕ → Option ℕ
  | [], _ => none
  | x :: xs, i => if |x| < t then firstNonzeroAux t xs (i + 1) else some i

/-- Source `Line.first_nonzero_index`; `none` is the
`No non-zero elements found` exception. -/
def Line.first_nonzero_index (l : Line) : Option ℕ :=
  firstNonzeroAux l.tolerance l.normal_vector.coordinates 0

/-- Source `Line.set_basepoint`: on success the base point has zeros everywhere
except `constant_term / normal_vector[initial_index]` at the first
non-zero index, and is built by `Vector(...)` with the default tolerance;
the `No non-zero elements found` exception is converted into an absent
(`none`) base point. -/
def Line.base_point (l : Line) : Option Vector :=
  (l.first_nonzero_index).map (fun i =>
    ⟨(List.replicate 2 (0 : ℚ)).set i
        (l.constant_term / l.normal_vector.coordinates.getD i 0),
      defaultTolerance⟩)

/-- Source `Line.is_parallel_to`: delegates to the normal vectors. -/
def Line.is_parallel_to (l m : Line) : Prop :=
  l.normal_vector.is_parallel_to m.normal_vector

instance (l m : Line) : Decidable (l.is_parallel_to m) :=
  inferInstanceAs (Decidable (l.normal_vector.is_parallel_to m.normal_vector))

/-- Source `Line.__eq__`.  Result `none` models an uncaught exception: when both
normal vectors are non-zero but a base point is absent,
`self.base_point - other.base_point` is `None - ...`, a `TypeError`. -/
def Line.eq (l m : Line) : Option Bool :=
  if l.is_parallel_to m then
    if l.normal_vector.is_zero then
      if ¬ m.normal_vector.is_zero then some false
      else some (decide (|l.constant_term - m.constant_term| < l.tolerance))
    else if m.normal_vector.is_zero then some false
    else
      match l.base_point, m.base_point with
      | some bl, some bm =>
          some (decide ((bl.subtract bm).is_zero ∨
            (bl.subtract bm).is_orthogonal_to l.normal_vector))
      | _, _ => none
  else some false

/-- The three result shapes of `Line.intersection`: the line itself
(coincident), `None` (parallel), or a coordinate pair. -/
inductive LineIntersection where
  | line (l : Line)
  | noIntersection
  | point (x y : ℚ)
deriving DecidableEq, Repr

/-- Source `Line.intersection`.  Outer `none` models an uncaught exception
(either one propagated from `__eq__`, an index error on a too-short
normal vector, or a decimal division by zero in the Cramer branch). -/
def Line.intersection (l m : Line) : Option LineIntersection :=
  match l.eq m with
  | none => none
  | some true => some (.line l)
  | some false =>
    if l.is_parallel_to m then some .noIntersection
    else
      match l.normal_vector.coordinates.get? 0, l.normal_vector.coordinates.get? 1,
            m.normal_vector.coordinates.get? 0, m.normal_vector.coordinates.get? 1 with
      | some a, some b, some d, some e =>
          if a * e - b * d = 0 then none
          else some (.point ((l.constant_term * e - b * m.constant_term) / (a * e - b * d))
                            ((a * m.constant_term - d * l.constant_term) / (a * e - b * d)))
      | _, _, _, _ => none

/-
String rendering (`Line.__str__`).  `round(coefficient, 3)` on a Decimal
quantizes to 3 decimal places with banker's rounding (round half to
even); a value that is whole after rounding is converted to `int` and
prints without decimals, otherwise the quantized Decimal prints with
exactly three decimal digits.
-/

/-- Round half to even, Python's rounding mode for `round`. -/
def roundHalfEven (q : ℚ) : ℤ :=
  if q - ⌊q⌋ < 1 / 2 then ⌊q⌋
  else if 1 / 2 < q - ⌊q⌋ then ⌊q⌋ + 1
  else if Even ⌊q⌋ then ⌊q⌋ else ⌊q⌋ + 1

/-- Source `round(x, 3)`. -/
def round3 (q : ℚ) : ℚ :=
  (roundHalfEven (q * 1000) : ℚ) / 1000

/-- Three-digit zero-padded rendering of a fractional part. -/
def padThree (n : ℕ) : String :=
  if n < 10 then "00" ++ toString n
  else if n < 100 then "0" ++ toString n
  else toString n

/-- Python `str` of a non-negative quantity quantized to three decimal
places: the integer part, a dot, and exactly three decimal digits. -/
def formatDec3 (q : ℚ) : String :=
  toString ⌊q⌋ ++ "." ++ padThree ((q * 1000).floor.toNat % 1000)

/-- Source `str` of the absolute value of the rounded coefficient, after the
`if coefficient % 1 == 0: coefficient = int(coefficient)` conversion. -/
def formatAbsCoefficient (c : ℚ) : String :=
  if c.den = 1 then toString c.num.natAbs else formatDec3 |c|

/-- Source `write_coefficient` from `Line.__str__`: round to three decimals,
then emit sign, optional `+`, spacing and (unless the absolute value is
exactly 1) the printed absolute value. -/
def write_coefficient (coefficient : ℚ) (is_initial_term : Bool) : String :=
  (if round3 coefficient < 0 then "-" else "") ++
    (if 0 < round3 coefficient ∧ is_initial_term = false then "+" else "") ++
    (if is_initial_term = false then " " else "") ++
    (if |round3 coefficient| ≠ 1 then formatAbsCoefficient (round3 coefficient) else "")

/-- The left-hand side built by `Line.__str__`: on
`No non-zero elements found` the literal `0`; otherwise the
space-joined list of terms, keeping exactly the indices whose coefficient
does not round to zero at three decimals. -/
def Line.lhsString (l : Line) : String :=
  match l.first_nonzero_index with
  | none => "0"
  | some init =>
      String.intercalate " "
        ((List.range 2).filterMap (fun i =>
          if round3 (l.normal_vector.coordinates.getD i 0) ≠ 0 then
            some (write_coefficient (l.normal_vector.coordinates.getD i 0)
                    (i == init) ++ "x_" ++ toString (i + 1))
          else none))

/-- Source `str` of the rounded constant term (int-converted when whole). -/
def formatConstant (c : ℚ) : String :=
  if c.den = 1 then toString c.num
  else (if c < 0 then "-" else "") ++ formatDec3 |c|

/-- Source `Line.__str__`: the left-hand side followed by `= constant`. -/
def Line.render (l : Line) : String :=
  l.lhsString ++ " = " ++ formatConstant (round3 l.constant_term)

/-! Helper lemmas. -/

set_option maxRecDepth 40000

lemma zipWith_trunc {α : Type} (f : α → α → α) (xs ys zs : List α)
    (h : xs.length = ys.length) :
    List.zipWith f xs (ys ++ zs) = List.zipWith f xs ys := by
  have := List.zipWith_append f xs ([] : List α) ys zs h
  simpa using this

lemma Vector.dot_comm (v w : Vector) : v.dot w = w.dot v := by
  unfold Vector.dot
  rw [List.zipWith_comm_of_comm (· * ·) mul_comm]

lemma Vector.dot_self_eq_magSq (v : Vector) : v.dot v = v.magSq := by
  unfold Vector.dot Vector.magSq
  induction v.coordinates with
  | nil => simp
  | cons x xs ih => simp only [List.zipWith_cons_cons, List.map_cons, List.sum_cons, ih]; ring_nf

lemma magSq_pair (v : Vector) (a b : ℚ) (h : v.coordinates = [a, b]) :
    v.magSq = a ^ 2 + b ^ 2 := by
  simp [Vector.magSq, h]

lemma dot_pair (v w : Vector) (a b d e : ℚ) (hv : v.coordinates = [a, b])
    (hw : w.coordinates = [d, e]) : v.dot w = a * d + b * e := by
  simp [Vector.dot, hv, hw]

/-- Cauchy-Schwarz equality: a vanishing 2x2 determinant forces the
`is_parallel_to` test to succeed, so in the non-parallel branch the
determinant is non-zero. -/
lemma det_ne_zero_of_not_parallel (v w : Vector) (a b d e : ℚ)
    (hv : v.coordinates = [a, b]) (hw : w.coordinates = [d, e])
    (ht : 0 < v.tolerance) (h : ¬ v.is_parallel_to w) :
    a * e - b * d ≠ 0 := by
  intro hdet
  apply h
  right; right
  have hprod : (v.magSq * w.magSq : ℚ) = (a * d + b * e) ^ 2 := by
    rw [magSq_pair v a b hv, magSq_pair w d e hw]
    linear_combination (a * e - b * d) * hdet
  have hmag : v.magnitude * w.magnitude = ((|v.dot w| : ℚ) : ℝ) := by
    unfold Vector.magnitude
    rw [← Real.sqrt_mul (by exact_mod_cast v.magSq_nonneg)]
    rw [show ((v.magSq : ℝ) * (w.magSq : ℝ)) = ((v.magSq * w.magSq : ℚ) : ℝ) by push_cast; ring]
    rw [hprod, dot_pair v w a b d e hv hw]
    push_cast
    rw [show ((a : ℝ) * d + b * e) ^ 2 = (a * d + b * e : ℝ) ^ 2 by ring]
    rw [Real.sqrt_sq_eq_abs]
  rw [hmag, sub_self, abs_zero]
  exact_mod_cast ht

/-! Theorems for the claims. -/

/-- Claim C1 (corrected), counterexample: a line whose normal vector is
`(9e-16, 9e-16)` at the default tolerance `1e-15`.  Its magnitude is
about `1.27e-15`, so `normal_vector.is_zero()` is false, yet both
coordinates individually lie below the tolerance, so
`first_nonzero_index` fails and the base point is absent. -/
theorem basepoint_absent_for_nonzero_normal :
    ¬ (Line.mk (Vector.mk [9 / 10 ^ 16, 9 / 10 ^ 16] defaultTolerance) 1
        defaultTolerance).normal_vector.is_zero ∧
    (Line.mk (Vector.mk [9 / 10 ^ 16, 9 / 10 ^ 16] defaultTolerance) 1
        defaultTolerance).base_point = none := by
  constructor
  · with_unfolding_all decide
  · with_unfolding_all decide

/-- Claim C1 (amended): the base point is absent exactly when every
coordinate of the normal vector is individually below the line's
tolerance in absolute value (not when the normal vector is zero within
tolerance by the magnitude test), and whenever the base point is defined
it satisfies `normal_vector · base_point == constant_term` exactly. -/
theorem basepoint_characterization (l : Line) (a b : ℚ)
    (hco : l.normal_vector.coordinates = [a, b]) (htol : 0 < l.tolerance) :
    (l.base_point = none ↔ (|a| < l.tolerance ∧ |b| < l.tolerance)) ∧
    (∀ p, l.base_point = some p → l.normal_vector.dot p = l.constant_term) := by
  have hbp : l.base_point = (firstNonzeroAux l.tolerance [a, b] 0).map (fun i =>
      Vector.mk ((List.replicate 2 (0 : ℚ)).set i
        (l.constant_term / ([a, b].getD i 0))) defaultTolerance) := by
    rw [Line.base_point, Line.first_nonzero_index, hco]
  by_cases ha : |a| < l.tolerance
  · by_cases hb2 : |b| < l.tolerance
    · rw [hbp]
      simp [firstNonzeroAux, ha, hb2]
    · have hbne : b ≠ 0 := by
        intro hb0
        apply hb2
        simpa [hb0] using htol
      rw [hbp]
      simp only [firstNonzeroAux, if_pos ha, if_neg hb2, Option.map_some']
      constructor
      · simp [hb2]
      · intro p hp
        rw [← Option.some_inj.mp hp]
        rw [dot_pair l.normal_vector _ a b 0 (l.constant_term / b) hco (by simp)]
        field_simp
  · have hane : a ≠ 0 := by
      intro ha0
      apply ha
      simpa [ha0] using htol
    rw [hbp]
    simp only [firstNonzeroAux, if_neg ha, Option.map_some']
    constructor
    · simp [ha]
    · intro p hp
      rw [← Option.some_inj.mp hp]
      rw [dot_pair l.normal_vector _ a b (l.constant_term / a) 0 hco (by simp)]
      field_simp

theorem basepoint_characterization_witness :
    (Line.mk (Vector.mk [1, 0] defaultTolerance) 5 defaultTolerance).normal_vector.coordinates
        = [1, 0] ∧
    0 < (Line.mk (Vector.mk [1, 0] defaultTolerance) 5 defaultTolerance).tolerance ∧
    ((Line.mk (Vector.mk [1, 0] defaultTolerance) 5 defaultTolerance).base_point = none ↔
      (|(1 : ℚ)| < (Line.mk (Vector.mk [1, 0] defaultTolerance) 5 defaultTolerance).tolerance ∧
       |(0 : ℚ)| < (Line.mk (Vector.mk [1, 0] defaultTolerance) 5 defaultTolerance).tolerance)) ∧
    (∀ p, (Line.mk (Vector.mk [1, 0] defaultTolerance) 5 defaultTolerance).base_point = some p →
      (Line.mk (Vector.mk [1, 0] defaultTolerance) 5
        defaultTolerance).normal_vector.dot p =
        (Line.mk (Vector.mk [1, 0] defaultTolerance) 5 defaultTolerance).constant_term) := by
  have htol : (0 : ℚ) < defaultTolerance := by with_unfolding_all decide
  have h := basepoint_characterization
    (Line.mk (Vector.mk [1, 0] defaultTolerance) 5 defaultTolerance) 1 0 rfl htol
  exact ⟨rfl, htol, h.1, h.2⟩

/-- Claim C2 (confirmed): whenever `is_parallel_to` returns false (and the
normal vectors are genuine 2-D coordinate pairs with a positive
tolerance, as the data model requires), the determinant `a*e - b*d` is
non-zero and `intersection` returns exactly the Cramer coordinate pair,
with no failing division. -/
theorem intersection_cramer (l m : Line) (a b d e : ℚ)
    (ha : l.normal_vector.coordinates = [a, b]) (hd : m.normal_vector.coordinates = [d, e])
    (htol : 0 < l.normal_vector.tolerance) (hnp : ¬ l.is_parallel_to m) :
    a * e - b * d ≠ 0 ∧
    l.intersection m =
      some (.point ((l.constant_term * e - b * m.constant_term) / (a * e - b * d))
                   ((a * m.constant_term - d * l.constant_term) / (a * e - b * d))) := by
  have hdet := det_ne_zero_of_not_parallel l.normal_vector m.normal_vector a b d e
    ha hd htol (fun hp => hnp hp)
  refine ⟨hdet, ?_⟩
  have heq : l.eq m = some false := by
    unfold Line.eq
    rw [if_neg hnp]
  unfold Line.intersection
  rw [heq, if_neg hnp, ha, hd]
  simp only [List.get?]
  rw [if_neg hdet]

theorem intersection_cramer_witness :
    (Line.mk (Vector.mk [1, 0] defaultTolerance) 1 defaultTolerance).normal_vector.coordinates
      = [1, 0] ∧
    (Line.mk (Vector.mk [0, 1] defaultTolerance) 2 defaultTolerance).normal_vector.coordinates
      = [0, 1] ∧
    0 < (Line.mk (Vector.mk [1, 0] defaultTolerance) 1
      defaultTolerance).normal_vector.tolerance ∧
    ¬ (Line.mk (Vector.mk [1, 0] defaultTolerance) 1 defaultTolerance).is_parallel_to
      (Line.mk (Vector.mk [0, 1] defaultTolerance) 2 defaultTolerance) ∧
    (1 : ℚ) * 1 - 0 * 0 ≠ 0 ∧
    (Line.mk (Vector.mk [1, 0] defaultTolerance) 1 defaultTolerance).intersection
        (Line.mk (Vector.mk [0, 1] defaultTolerance) 2 defaultTolerance) =
      some (.point
        (((Line.mk (Vector.mk [1, 0] defaultTolerance) 1 defaultTolerance).constant_term * 1 -
            0 * (Line.mk (Vector.mk [0, 1] defaultTolerance) 2
              defaultTolerance).constant_term) / (1 * 1 - 0 * 0))
        ((1 * (Line.mk (Vector.mk [0, 1] defaultTolerance) 2
              defaultTolerance).constant_term -
            0 * (Line.mk (Vector.mk [1, 0] defaultTolerance) 1
              defaultTolerance).constant_term) / (1 * 1 - 0 * 0))) := by
  have htol : (0 : ℚ) < defaultTolerance := by with_unfolding_all decide
  have hnp : ¬ (Line.mk (Vector.mk [1, 0] defaultTolerance) 1 defaultTolerance).is_parallel_to
      (Line.mk (Vector.mk [0, 1] defaultTolerance) 2 defaultTolerance) := by
    with_unfolding_all decide
  have h := intersection_cramer
    (Line.mk (Vector.mk [1, 0] defaultTolerance) 1 defaultTolerance)
    (Line.mk (Vector.mk [0, 1] defaultTolerance) 2 defaultTolerance)
    1 0 0 1 rfl rfl htol hnp
  exact ⟨rfl, rfl, htol, hnp, h.1, h.2⟩

/-- Claim C5 (confirmed): for every vector `v`, `v.magnitude() >= 0`, and
`v.is_zero()` holds iff `v.magnitude() < v.tolerance`. -/
theorem magnitude_nonneg_and_is_zero_iff (v : Vector) :
    0 ≤ v.magnitude ∧ (v.is_zero ↔ v.magnitude < (v.tolerance : ℝ)) :=
  ⟨Real.sqrt_nonneg _, Iff.rfl⟩

/-- Claim C9 (confirmed): on vectors of unequal dimension, `add`,
`subtract` and `dot` do not fail: they act on the first
`min(m, n)` coordinate pairs only, so `add`/`subtract` return a vector of
the smaller dimension and extra trailing coordinates of the longer
operand never influence the result. -/
theorem mismatched_dimensions_truncate (v w : Vector) (xs ys zs : List ℚ) (t u : ℚ)
    (h : xs.length = ys.length) :
    (v.add w).dimension = min v.dimension w.dimension ∧
    (v.subtract w).dimension = min v.dimension w.dimension ∧
    (Vector.mk xs t).add (Vector.mk (ys ++ zs) u) = (Vector.mk xs t).add (Vector.mk ys u) ∧
    (Vector.mk xs t).subtract (Vector.mk (ys ++ zs) u) =
      (Vector.mk xs t).subtract (Vector.mk ys u) ∧
    (Vector.mk xs t).dot (Vector.mk (ys ++ zs) u) = (Vector.mk xs t).dot (Vector.mk ys u) := by
  refine ⟨?_, ?_, ?_, ?_, ?_⟩
  · simp [Vector.add, Vector.dimension, List.length_zipWith]
  · simp [Vector.subtract, Vector.dimension, List.length_zipWith]
  · simp [Vector.add, zipWith_trunc _ _ _ _ h]
  · simp [Vector.subtract, zipWith_trunc _ _ _ _ h]
  · simp [Vector.dot, zipWith_trunc _ _ _ _ h]

theorem mismatched_dimensions_truncate_witness :
    ([1, 2] : List ℚ).length = ([3, 4] : List ℚ).length ∧
    ((Vector.mk [1, 2, 3] 5).add (Vector.mk [1] 7)).dimension =
        min (Vector.mk [1, 2, 3] 5).dimension (Vector.mk [1] 7).dimension ∧
    ((Vector.mk [1, 2, 3] 5).subtract (Vector.mk [1] 7)).dimension =
        min (Vector.mk [1, 2, 3] 5).dimension (Vector.mk [1] 7).dimension ∧
    (Vector.mk [1, 2] 0).add (Vector.mk ([3, 4] ++ [5]) 0) =
        (Vector.mk [1, 2] 0).add (Vector.mk [3, 4] 0) ∧
    (Vector.mk [1, 2] 0).subtract (Vector.mk ([3, 4] ++ [5]) 0) =
        (Vector.mk [1, 2] 0).subtract (Vector.mk [3, 4] 0) ∧
    (Vector.mk [1, 2] 0).dot (Vector.mk ([3, 4] ++ [5]) 0) =
        (Vector.mk [1, 2] 0).dot (Vector.mk [3, 4] 0) :=
  ⟨rfl, mismatched_dimensions_truncate (Vector.mk [1, 2, 3] 5) (Vector.mk [1] 7)
    [1, 2] [3, 4] [5] 0 0 rfl⟩

/-- Claim C7 (corrected), counterexample: `is_parallel_to` is not
symmetric for every pair of equal-dimension vectors, because the
final tolerance comparison uses only `self.tolerance`.  With
`v = (1, 0)` at tolerance `1e-15` and `w = (1, 1)` at tolerance `1`
(neither of which is zero within its own tolerance),
`v.is_parallel_to(w)` is false but `w.is_parallel_to(v)` is true. -/
theorem is_parallel_to_not_symmetric :
    (Vector.mk [1, 0] defaultTolerance).dimension = (Vector.mk [1, 1] 1).dimension ∧
    ¬ ((Vector.mk [1, 0] defaultTolerance).is_parallel_to (Vector.mk [1, 1] 1) ↔
       (Vector.mk [1, 1] 1).is_parallel_to (Vector.mk [1, 0] defaultTolerance)) := by
  with_unfolding_all decide

/-- Claim C7 (amended): `is_parallel_to` is symmetric for every pair of
vectors of equal dimension that carry the same tolerance. -/
theorem is_parallel_to_symm (v w : Vector) (_hdim : v.dimension = w.dimension)
    (htol : v.tolerance = w.tolerance) :
    (v.is_parallel_to w ↔ w.is_parallel_to v) := by
  unfold Vector.is_parallel_to
  rw [Vector.dot_comm, htol, mul_comm v.magnitude w.magnitude]
  exact or_left_comm

theorem is_parallel_to_symm_witness :
    (Vector.mk [1, 2] defaultTolerance).dimension = (Vector.mk [3, 4] defaultTolerance).dimension ∧
    (Vector.mk [1, 2] defaultTolerance).tolerance = (Vector.mk [3, 4] defaultTolerance).tolerance ∧
    ((Vector.mk [1, 2] defaultTolerance).is_parallel_to (Vector.mk [3, 4] defaultTolerance) ↔
     (Vector.mk [3, 4] defaultTolerance).is_parallel_to (Vector.mk [1, 2] defaultTolerance)) :=
  ⟨rfl, rfl, is_parallel_to_symm (Vector.mk [1, 2] defaultTolerance)
    (Vector.mk [3, 4] defaultTolerance) rfl rfl⟩

/-- Claim C4 (corrected), counterexample: an empty iterator object is an
empty coordinates input, yet construction succeeds (Python truthiness of
an iterator is `True`, so the `if not coordinates` emptiness test passes)
and yields a vector whose coordinates sequence is empty. -/
theorem construct_empty_iterator_succeeds :
    Vector.construct (PyInput.iterator []) defaultTolerance =
        .ok (Vector.mk [] defaultTolerance) ∧
    (PyInput.iterator ([] : List ℚ)).elements = [] ∧
    (Vector.mk ([] : List ℚ) defaultTolerance).coordinates = [] :=
  ⟨rfl, rfl, rfl⟩

/-- Claim C4 (amended): construction fails exactly when the input is
non-iterable or Python-falsy; restricted to sequence inputs
(lists/tuples) the original claim holds: failure iff empty, and every
vector successfully constructed from a sequence has non-empty
coordinates.  An empty but truthy iterator passes the emptiness check and
produces a vector with empty coordinates. -/
theorem construct_characterization (input : PyInput) (tol : ℚ) :
    (constructRaises (Vector.construct input tol) = true ↔
      (input.truthy = false ∨ input.iterable = false)) ∧
    (∀ l, input = PyInput.sequence l →
      (constructRaises (Vector.construct input tol) = true ↔ l = [])) ∧
    (∀ l v, input = PyInput.sequence l → Vector.construct input tol = .ok v →
      v.coordinates ≠ []) := by
  refine ⟨?_, ?_, ?_⟩
  · cases input with
    | notIterable b =>
        cases b <;> simp [Vector.construct, PyInput.truthy, PyInput.iterable, constructRaises]
    | sequence l =>
        cases l <;> simp [Vector.construct, PyInput.truthy, PyInput.iterable, constructRaises]
    | iterator l =>
        simp [Vector.construct, PyInput.truthy, PyInput.iterable, constructRaises]
  · rintro l rfl
    cases l <;> simp [Vector.construct, PyInput.truthy, constructRaises]
  · rintro l v rfl hok
    cases l with
    | nil => simp [Vector.construct, PyInput.truthy] at hok
    | cons x xs =>
        simp only [Vector.construct, PyInput.truthy] at hok
        simp at hok
        rw [← hok]
        simp

theorem construct_characterization_witness :
    (constructRaises (Vector.construct (PyInput.sequence [1, 2]) defaultTolerance) = true ↔
      ((PyInput.sequence [1, 2]).truthy = false ∨ (PyInput.sequence [1, 2]).iterable = false)) ∧
    ((PyInput.sequence ([1, 2] : List ℚ)) = PyInput.sequence [1, 2] →
      (constructRaises (Vector.construct (PyInput.sequence [1, 2]) defaultTolerance) = true ↔
        ([1, 2] : List ℚ) = [])) ∧
    ((PyInput.sequence ([1, 2] : List ℚ)) = PyInput.sequence [1, 2] →
      Vector.construct (PyInput.sequence [1, 2]) defaultTolerance =
        .ok (Vector.mk [1, 2] defaultTolerance) →
      (Vector.mk ([1, 2] : List ℚ) defaultTolerance).coordinates ≠ []) := by
  have h := construct_characterization (PyInput.sequence [1, 2]) defaultTolerance
  exact ⟨h.1, fun _ => h.2.1 [1, 2] rfl, fun h1 h2 => h.2.2 [1, 2] _ h1 h2⟩

lemma zipWith_sub_self (xs : List ℚ) :
    List.zipWith (· - ·) xs xs = List.map (fun _ => (0 : ℚ)) xs := by
  induction xs with
  | nil => rfl
  | cons x xs ih => simp [ih]

lemma Vector.subtract_self_is_zero (v : Vector) : (v.subtract v).is_zero := by
  have hms : (v.subtract v).magSq = 0 := by
    unfold Vector.subtract Vector.magSq
    simp only [zipWith_sub_self, List.map_map]
    apply List.sum_eq_zero
    intro y hy
    rcases List.mem_map.mp hy with ⟨x, _, hx⟩
    simp [← hx]
  unfold Vector.is_zero Vector.magnitude
  rw [hms]
  push_cast
  rw [Real.sqrt_zero]
  have ht : (v.subtract v).tolerance = defaultTolerance := rfl
  rw [ht]
  have : (0 : ℚ) < defaultTolerance := by norm_num [defaultTolerance]
  exact_mod_cast this

lemma Line.eq_ne_none (l m : Line)
    (hlb : ¬ l.normal_vector.is_zero → l.base_point ≠ none)
    (hmb : ¬ m.normal_vector.is_zero → m.base_point ≠ none) :
    l.eq m ≠ none := by
  unfold Line.eq
  by_cases hp : l.is_parallel_to m
  · rw [if_pos hp]
    by_cases hz : l.normal_vector.is_zero
    · rw [if_pos hz]
      by_cases hz2 : m.normal_vector.is_zero
      · simp [hz2]
      · simp [hz2]
    · rw [if_neg hz]
      by_cases hz2 : m.normal_vector.is_zero
      · simp [hz2]
      · rw [if_neg hz2]
        rcases Option.ne_none_iff_exists'.mp (hlb hz) with ⟨bl, hbl⟩
        rcases Option.ne_none_iff_exists'.mp (hmb hz2) with ⟨bm, hbm⟩
        rw [hbl, hbm]
        simp
  · rw [if_neg hp]
    simp

lemma Line.is_parallel_to_self (l : Line) (hlt : 0 < l.normal_vector.tolerance) :
    l.is_parallel_to l := by
  right; right
  rw [Vector.dot_self_eq_magSq]
  rw [abs_of_nonneg l.normal_vector.magSq_nonneg]
  unfold Vector.magnitude
  rw [Real.mul_self_sqrt (by exact_mod_cast l.normal_vector.magSq_nonneg)]
  rw [sub_self, abs_zero]
  exact_mod_cast hlt

lemma Line.eq_self (l : Line) (hlt : 0 < l.normal_vector.tolerance) (hl2 : 0 < l.tolerance)
    (hlb : ¬ l.normal_vector.is_zero → l.base_point ≠ none) :
    l.eq l = some true := by
  have hp := Line.is_parallel_to_self l hlt
  unfold Line.eq
  rw [if_pos hp]
  by_cases hz : l.normal_vector.is_zero
  · rw [if_pos hz, if_neg (not_not_intro hz), sub_self, abs_zero, decide_eq_true hl2]
  · rw [if_neg hz, if_neg hz]
    rcases Option.ne_none_iff_exists'.mp (hlb hz) with ⟨bl, hbl⟩
    rw [hbl]
    show some (decide ((bl.subtract bl).is_zero ∨
      (bl.subtract bl).is_orthogonal_to l.normal_vector)) = some true
    rw [decide_eq_true (Or.inl (Vector.subtract_self_is_zero bl))]

/-- Claim C3 (corrected), counterexample: `intersection` can raise in the
coincident case.  For the line with normal vector `(9e-16, 9e-16)` at the
default tolerances (not zero within tolerance, but with no coordinate
reaching the tolerance, hence no base point),
`line.intersection(line)` reaches `self.base_point - other.base_point`
with both base points `None` and raises a `TypeError` (modelled as
`none`) instead of returning the line. -/
theorem self_intersection_raises :
    (Line.mk (Vector.mk [9 / 10 ^ 16, 9 / 10 ^ 16] defaultTolerance) 1
        defaultTolerance).intersection
      (Line.mk (Vector.mk [9 / 10 ^ 16, 9 / 10 ^ 16] defaultTolerance) 1
        defaultTolerance) = none := by
  with_unfolding_all decide

/-- Claim C3 (amended): for lines with 2-D normal vectors, positive
tolerances, and a defined base point whenever the normal vector is not
zero within tolerance, `intersection` never raises and returns one of
the three outcomes: `l.intersection(l)` returns `l` itself, and when the
lines are unequal but parallel it returns the explicit `no intersection`
result. -/
theorem intersection_branches (l m : Line)
    (hld : l.normal_vector.dimension = 2) (hmd : m.normal_vector.dimension = 2)
    (hlt : 0 < l.normal_vector.tolerance) (hl2 : 0 < l.tolerance)
    (hlb : ¬ l.normal_vector.is_zero → l.base_point ≠ none)
    (hmb : ¬ m.normal_vector.is_zero → m.base_point ≠ none) :
    l.intersection m ≠ none ∧
    l.intersection l = some (.line l) ∧
    (l.eq m = some false → l.is_parallel_to m →
      l.intersection m = some .noIntersection) := by
  refine ⟨?_, ?_, ?_⟩
  · rcases Option.ne_none_iff_exists'.mp (Line.eq_ne_none l m hlb hmb) with ⟨bv, hbv⟩
    unfold Line.intersection
    rw [hbv]
    cases bv with
    | true => simp
    | false =>
        by_cases hp : l.is_parallel_to m
        · rw [if_pos hp]
          simp
        · rw [if_neg hp]
          rcases List.length_eq_two.mp (show l.normal_vector.coordinates.length = 2
            from hld) with ⟨a, b2, hab⟩
          rcases List.length_eq_two.mp (show m.normal_vector.coordinates.length = 2
            from hmd) with ⟨d, e, hde⟩
          rw [hab, hde]
          simp only [List.get?]
          rw [if_neg (det_ne_zero_of_not_parallel l.normal_vector m.normal_vector
            a b2 d e hab hde hlt (fun hv => hp hv))]
          simp
  · unfold Line.intersection
    rw [Line.eq_self l hlt hl2 hlb]
  · intro heq hp
    unfold Line.intersection
    rw [heq, if_pos hp]

theorem intersection_branches_witness :
    (Line.mk (Vector.mk [1, 0] 1) 1 (1 / 2)).normal_vector.dimension = 2 ∧
    (Line.mk (Vector.mk [0, 1] 1) 2 (1 / 2)).normal_vector.dimension = 2 ∧
    0 < (Line.mk (Vector.mk [1, 0] 1) 1 (1 / 2)).normal_vector.tolerance ∧
    0 < (Line.mk (Vector.mk [1, 0] 1) 1 (1 / 2)).tolerance ∧
    (¬ (Line.mk (Vector.mk [1, 0] 1) 1 (1 / 2)).normal_vector.is_zero →
      (Line.mk (Vector.mk [1, 0] 1) 1 (1 / 2)).base_point ≠ none) ∧
    (¬ (Line.mk (Vector.mk [0, 1] 1) 2 (1 / 2)).normal_vector.is_zero →
      (Line.mk (Vector.mk [0, 1] 1) 2 (1 / 2)).base_point ≠ none) ∧
    (Line.mk (Vector.mk [1, 0] 1) 1 (1 / 2)).intersection
      (Line.mk (Vector.mk [0, 1] 1) 2 (1 / 2)) ≠ none ∧
    (Line.mk (Vector.mk [1, 0] 1) 1 (1 / 2)).intersection
      (Line.mk (Vector.mk [1, 0] 1) 1 (1 / 2)) =
      some (.line (Line.mk (Vector.mk [1, 0] 1) 1 (1 / 2))) := by
  have hlb : (Line.mk (Vector.mk [1, 0] 1) 1 (1 / 2)).base_point ≠ none := by
    with_unfolding_all decide
  have hmb : (Line.mk (Vector.mk [0, 1] 1) 2 (1 / 2)).base_point ≠ none := by
    with_unfolding_all decide
  have h := intersection_branches
    (Line.mk (Vector.mk [1, 0] 1) 1 (1 / 2)) (Line.mk (Vector.mk [0, 1] 1) 2 (1 / 2))
    rfl rfl (by norm_num) (by norm_num) (fun _ => hlb) (fun _ => hmb)
  exact ⟨rfl, rfl, by norm_num, by norm_num, fun _ => hlb, fun _ => hmb, h.1, h.2.1⟩

lemma rdot_map_mul_left (xs ys : List ℝ) (c : ℝ) :
    rdot (xs.map (fun x => x * c)) ys = c * rdot xs ys := by
  induction xs generalizing ys with
  | nil => simp [rdot]
  | cons x xs ih =>
      cases ys with
      | nil => simp [rdot]
      | cons y ys =>
          simp only [List.map_cons, rdot, List.zipWith_cons_cons, List.sum_cons]
          have h := ih ys
          simp only [rdot] at h
          rw [h]
          ring

lemma rdot_comm (xs ys : List ℝ) : rdot xs ys = rdot ys xs := by
  unfold rdot
  rw [List.zipWith_comm_of_comm (· * ·) mul_comm]

lemma rdot_map_mul_right (xs ys : List ℝ) (c : ℝ) :
    rdot xs (ys.map (fun x => x * c)) = c * rdot xs ys := by
  rw [rdot_comm, rdot_map_mul_left, rdot_comm]

lemma rdot_sub_left (xs ys zs : List ℝ) (h : xs.length = ys.length) :
    rdot (List.zipWith (· - ·) xs ys) zs = rdot xs zs - rdot ys zs := by
  induction xs generalizing ys zs with
  | nil =>
      cases ys with
      | nil => simp [rdot]
      | cons y ys => simp at h
  | cons x xs ih =>
      cases ys with
      | nil => simp at h
      | cons y ys =>
          cases zs with
          | nil => simp [rdot]
          | cons z zs =>
              simp only [List.zipWith_cons_cons, rdot, List.sum_cons]
              have h2 := ih ys zs (by simpa using h)
              simp only [rdot] at h2
              rw [h2]
              ring

lemma zipWith_add_sub_cancel (xs ys : List ℝ) (h : ys.length = xs.length) :
    List.zipWith (· + ·) ys (List.zipWith (· - ·) xs ys) = xs := by
  induction xs generalizing ys with
  | nil =>
      cases ys with
      | nil => rfl
      | cons y ys => simp at h
  | cons x xs ih =>
      cases ys with
      | nil => simp at h
      | cons y ys =>
          simp only [List.zipWith_cons_cons]
          rw [ih ys (by simpa using h)]
          congr 1
          ring

lemma rdot_cast_self (xs : List ℚ) :
    rdot (xs.map (fun x : ℚ => (x : ℝ))) (xs.map (fun x : ℚ => (x : ℝ))) =
      (((xs.map (fun x => x ^ 2)).sum : ℚ) : ℝ) := by
  induction xs with
  | nil => simp [rdot]
  | cons x xs ih =>
      simp only [List.map_cons, rdot, List.zipWith_cons_cons, List.sum_cons] at ih ⊢
      rw [Rat.cast_add, Rat.cast_pow, ← ih]
      ring

lemma rdot_rcoords_self (w : Vector) : rdot w.rcoords w.rcoords = (w.magSq : ℝ) := by
  unfold Vector.rcoords Vector.magSq
  exact rdot_cast_self w.coordinates

lemma proj_cancel (vr wr : List ℝ) (c : ℝ) (hlen : vr.length = wr.length) :
    List.zipWith (· + ·) (wr.map (fun x => x * c))
      (List.zipWith (· - ·) vr (wr.map (fun x => x * c))) = vr :=
  zipWith_add_sub_cancel vr (wr.map (fun x => x * c)) (by simpa using hlen.symm)

lemma proj_orthogonal (vr wr : List ℝ) (S : ℝ) (hS : S ≠ 0)
    (hlen : vr.length = wr.length) (hSS : S * S = rdot wr wr) :
    rdot (List.zipWith (· - ·) vr ((wr.map (fun x => x * S⁻¹)).map
      (fun x => x * rdot vr (wr.map (fun y => y * S⁻¹))))) wr = 0 := by
  rw [rdot_sub_left _ _ _ (by simpa using hlen)]
  rw [rdot_map_mul_left, rdot_map_mul_left, rdot_map_mul_right]
  rw [← hSS]
  field_simp

/-- Claim C6 (confirmed): for every vector `v` and non-zero vector `w` of
equal dimension, the projection decomposition round-trips exactly in the
idealised arithmetic: `parallel_to` and `orthogonal_to` both succeed,
their sum has exactly the coordinates of `v`, and the orthogonal
component `is_orthogonal_to w`. -/
theorem projection_decomposition (v w : Vector) (hw : w.magSq ≠ 0)
    (hdim : v.dimension = w.dimension) :
    ∃ p o : RVector, v.parallel_to w = some p ∧ v.orthogonal_to w = some o ∧
      (p.add o).coordinates = v.rcoords ∧ o.is_orthogonal_to w := by
  have hSnn : (0 : ℝ) ≤ (w.magSq : ℝ) := by exact_mod_cast w.magSq_nonneg
  have hS2 : w.magnitude * w.magnitude = (w.magSq : ℝ) := Real.mul_self_sqrt hSnn
  have hmagpos : (0 : ℝ) < (w.magSq : ℝ) := by
    have h := lt_of_le_of_ne w.magSq_nonneg (Ne.symm hw)
    exact_mod_cast h
  have hSne : w.magnitude ≠ 0 := ne_of_gt (Real.sqrt_pos.mpr hmagpos)
  have hdiv : w.coordinates.map (fun x : ℚ => (x : ℝ) / w.magnitude)
      = w.rcoords.map (fun x => x * (w.magnitude)⁻¹) := by
    unfold Vector.rcoords
    rw [List.map_map]
    simp only [div_eq_mul_inv]
    rfl
  have hlen : v.rcoords.length = w.rcoords.length := by
    unfold Vector.rcoords
    rw [List.length_map, List.length_map]
    exact hdim
  have hSS : w.magnitude * w.magnitude = rdot w.rcoords w.rcoords := by
    rw [hS2, rdot_rcoords_self]
  have hpar : v.parallel_to w = some ⟨(w.coordinates.map (fun x : ℚ => (x : ℝ) / w.magnitude)).map
      (fun x => x * rdot v.rcoords (w.coordinates.map (fun y : ℚ => (y : ℝ) / w.magnitude))),
      defaultTolerance⟩ := by
    unfold Vector.parallel_to Vector.normalized
    rw [if_neg hw]
    rfl
  have horth : v.orthogonal_to w = some ⟨List.zipWith (· - ·) v.rcoords
      ((w.coordinates.map (fun x : ℚ => (x : ℝ) / w.magnitude)).map
        (fun x => x * rdot v.rcoords (w.coordinates.map (fun y : ℚ => (y : ℝ) / w.magnitude)))),
      defaultTolerance⟩ := by
    unfold Vector.orthogonal_to Vector.parallel_to Vector.normalized
    rw [if_neg hw]
    rfl
  refine ⟨_, _, hpar, horth, ?_, ?_⟩
  · show List.zipWith (· + ·) _ (List.zipWith (· - ·) v.rcoords _) = v.rcoords
    rw [hdiv]
    exact proj_cancel v.rcoords (w.rcoords.map (fun x => x * (w.magnitude)⁻¹))
      (rdot v.rcoords (w.rcoords.map (fun x => x * (w.magnitude)⁻¹)))
      (by simpa using hlen)
  · show |rdot (List.zipWith (· - ·) v.rcoords _) w.rcoords| <
      ((defaultTolerance : ℚ) : ℝ)
    rw [hdiv]
    rw [proj_orthogonal v.rcoords w.rcoords w.magnitude hSne hlen hSS]
    rw [abs_zero]
    exact_mod_cast (by norm_num [defaultTolerance] : (0 : ℚ) < defaultTolerance)

theorem projection_decomposition_witness :
    (Vector.mk ([1, 0] : List ℚ) defaultTolerance).magSq ≠ 0 ∧
    (Vector.mk ([3, 4] : List ℚ) defaultTolerance).dimension =
      (Vector.mk ([1, 0] : List ℚ) defaultTolerance).dimension ∧
    (∃ p o : RVector,
      (Vector.mk ([3, 4] : List ℚ) defaultTolerance).parallel_to
        (Vector.mk ([1, 0] : List ℚ) defaultTolerance) = some p ∧
      (Vector.mk ([3, 4] : List ℚ) defaultTolerance).orthogonal_to
        (Vector.mk ([1, 0] : List ℚ) defaultTolerance) = some o ∧
      (p.add o).coordinates = (Vector.mk ([3, 4] : List ℚ) defaultTolerance).rcoords ∧
      o.is_orthogonal_to (Vector.mk ([1, 0] : List ℚ) defaultTolerance)) := by
  have hw : (Vector.mk ([1, 0] : List ℚ) defaultTolerance).magSq ≠ 0 := by
    with_unfolding_all decide
  exact ⟨hw, rfl, projection_decomposition
    (Vector.mk ([3, 4] : List ℚ) defaultTolerance)
    (Vector.mk ([1, 0] : List ℚ) defaultTolerance) hw rfl⟩

/-- Claim C10 (confirmed): the tolerance field is not propagated through
arithmetic.  Every vector produced by `add`, `subtract`, scalar
multiplication, `normalized`, `parallel_to`, `orthogonal_to` or `cross`,
and the base point computed at line construction, carries the default
tolerance `1e-15`, whatever the tolerances of the operands or the line. -/
theorem tolerance_not_propagated (v w : Vector) (c : ℚ) (l : Line) (b : Vector)
    (hw : w.magSq ≠ 0) (hv3 : v.dimension = 3) (hw3 : w.dimension = 3)
    (hb : l.base_point = some b) :
    (v.add w).tolerance = defaultTolerance ∧
    (v.subtract w).tolerance = defaultTolerance ∧
    (v.scale c).tolerance = defaultTolerance ∧
    (∃ u, w.normalized = some u ∧ u.tolerance = defaultTolerance) ∧
    (∃ p, v.parallel_to w = some p ∧ p.tolerance = defaultTolerance) ∧
    (∃ o, v.orthogonal_to w = some o ∧ o.tolerance = defaultTolerance) ∧
    (∃ z, v.cross w = some z ∧ z.tolerance = defaultTolerance) ∧
    b.tolerance = defaultTolerance ∧
    defaultTolerance = 1 / 10 ^ 15 := by
  refine ⟨rfl, rfl, rfl, ?_, ?_, ?_, ?_, ?_, rfl⟩
  · unfold Vector.normalized
    rw [if_neg hw]
    exact ⟨_, rfl, rfl⟩
  · unfold Vector.parallel_to Vector.normalized
    rw [if_neg hw]
    exact ⟨_, rfl, rfl⟩
  · unfold Vector.orthogonal_to Vector.parallel_to Vector.normalized
    rw [if_neg hw]
    exact ⟨_, rfl, rfl⟩
  · unfold Vector.cross
    rw [if_pos ⟨hv3, hw3⟩]
    exact ⟨_, rfl, rfl⟩
  · rw [Line.base_point] at hb
    rcases Option.map_eq_some'.mp hb with ⟨i, _, rfl⟩
    rfl

theorem tolerance_not_propagated_witness :
    (Vector.mk [4, 5, 6] 7).magSq ≠ 0 ∧
    (Vector.mk [1, 2, 3] 5).dimension = 3 ∧
    (Vector.mk [4, 5, 6] 7).dimension = 3 ∧
    (Line.mk (Vector.mk [2, 0] 5) 6 1).base_point = some (Vector.mk [3, 0] defaultTolerance) ∧
    ((Vector.mk [1, 2, 3] 5).add (Vector.mk [4, 5, 6] 7)).tolerance = defaultTolerance ∧
    (∃ p, (Vector.mk [1, 2, 3] 5).parallel_to (Vector.mk [4, 5, 6] 7) = some p ∧
      p.tolerance = defaultTolerance) ∧
    (Vector.mk [3, 0] defaultTolerance).tolerance = defaultTolerance := by
  have hw : (Vector.mk ([4, 5, 6] : List ℚ) 7).magSq ≠ 0 := by with_unfolding_all decide
  have hb : (Line.mk (Vector.mk [2, 0] 5) 6 1).base_point =
      some (Vector.mk [3, 0] defaultTolerance) := by
    simp [Line.base_point, Line.first_nonzero_index, firstNonzeroAux]
    norm_num
  have h := tolerance_not_propagated (Vector.mk [1, 2, 3] 5) (Vector.mk [4, 5, 6] 7) 2
    (Line.mk (Vector.mk [2, 0] 5) 6 1) (Vector.mk [3, 0] defaultTolerance) hw rfl rfl hb
  exact ⟨hw, rfl, rfl, hb, h.1, h.2.2.2.2.1, h.2.2.2.2.2.2.2.1⟩

/-- Claim C8 (corrected), counterexample: the line with normal vector
`(0.0001, 0.0001)` at the default tolerance.  Both coefficients round to
zero at 3 decimal places, but both exceed the tolerance, so
`first_nonzero_index` succeeds, every term is filtered out of the
rendered left-hand side, and the left-hand side is the empty string, not
the literal `0` (the full rendering is `" = 0"`). -/
theorem lhs_empty_when_rounded_zero :
    round3 ((1 : ℚ) / 10000) = 0 ∧
    (Line.mk (Vector.mk [1 / 10000, 1 / 10000] defaultTolerance) 0
        defaultTolerance).lhsString = "" ∧
    (Line.mk (Vector.mk [1 / 10000, 1 / 10000] defaultTolerance) 0
        defaultTolerance).lhsString ≠ "0" ∧
    (Line.mk (Vector.mk [1 / 10000, 1 / 10000] defaultTolerance) 0
        defaultTolerance).render = " = 0" := by
  refine ⟨?_, ?_, ?_, ?_⟩
  · with_unfolding_all decide
  · with_unfolding_all decide
  · with_unfolding_all decide
  · with_unfolding_all decide

/-- Claim C8 (amended): for a line whose two normal-vector coefficients
both round to zero at 3 decimal places, the rendered left-hand side is
the literal `0` when every coefficient is also below the tolerance
(`first_nonzero_index` fails), and the empty string otherwise. -/
theorem lhs_when_rounded_zero (l : Line)
    (h0 : round3 (l.normal_vector.coordinates.getD 0 0) = 0)
    (h1 : round3 (l.normal_vector.coordinates.getD 1 0) = 0) :
    l.lhsString = if l.first_nonzero_index = none then "0" else "" := by
  by_cases h : l.first_nonzero_index = none
  · rw [if_pos h]
    unfold Line.lhsString
    rw [h]
  · rw [if_neg h]
    rcases Option.ne_none_iff_exists'.mp h with ⟨i, hi⟩
    unfold Line.lhsString
    rw [hi]
    have hf0 : (if round3 (l.normal_vector.coordinates.getD 0 0) ≠ 0 then
        some (write_coefficient (l.normal_vector.coordinates.getD 0 0) (0 == i) ++
          "x_" ++ toString (0 + 1)) else none) = none := by
      rw [h0]
      simp
    have hf1 : (if round3 (l.normal_vector.coordinates.getD 1 0) ≠ 0 then
        some (write_coefficient (l.normal_vector.coordinates.getD 1 0) (1 == i) ++
          "x_" ++ toString (1 + 1)) else none) = none := by
      rw [h1]
      simp
    show String.intercalate " "
      ((List.range 2).filterMap (fun j =>
        if round3 (l.normal_vector.coordinates.getD j 0) ≠ 0 then
          some (write_coefficient (l.normal_vector.coordinates.getD j 0) (j == i) ++
            "x_" ++ toString (j + 1))
        else none)) = ""
    rw [show List.range 2 = [0, 1] from rfl]
    simp only [List.filterMap_cons, List.filterMap_nil, hf0, hf1]
    rfl

theorem lhs_when_rounded_zero_witness :
    round3 ((Line.mk (Vector.mk [1 / 10000, 2 / 10000] defaultTolerance) 3
        defaultTolerance).normal_vector.coordinates.getD 0 0) = 0 ∧
    round3 ((Line.mk (Vector.mk [1 / 10000, 2 / 10000] defaultTolerance) 3
        defaultTolerance).normal_vector.coordinates.getD 1 0) = 0 ∧
    (Line.mk (Vector.mk [1 / 10000, 2 / 10000] defaultTolerance) 3
        defaultTolerance).lhsString =
      if (Line.mk (Vector.mk [1 / 10000, 2 / 10000] defaultTolerance) 3
        defaultTolerance).first_nonzero_index = none then "0" else "" := by
  have h0 : round3 ((Line.mk (Vector.mk [1 / 10000, 2 / 10000] defaultTolerance) 3
      defaultTolerance).normal_vector.coordinates.getD 0 0) = 0 := by
    with_unfolding_all decide
  have h1 : round3 ((Line.mk (Vector.mk [1 / 10000, 2 / 10000] defaultTolerance) 3
      defaultTolerance).normal_vector.coordinates.getD 1 0) = 0 := by
    with_unfolding_all decide
  exact ⟨h0, h1, lhs_when_rounded_zero
    (Line.mk (Vector.mk [1 / 10000, 2 / 10000] defaultTolerance) 3 defaultTolerance) h0 h1⟩

end LinAlg
